import Mathlib

/-!
Verification development for the servicenow-notes repository
(`src/ServiceNowNoteGenerator.tsx`).

The core of the program is a pure pipeline: `parseInput` extracts labeled
fields from a raw text via JavaScript regular expressions, and
`buildFrenchTemplates` renders four French text artifacts from the parsed
record.  This file gives a shallow embedding of that pipeline on
`List Char` / `String` and proves properties about it.

Conventions of the embedding:
* JS strings are modelled at the code-point level (`List Char`).  `slice`
  counts UTF-16 units in JS and code points here; all string literals in
  the program are in the Basic Multilingual Plane, where the two agree.
* The JS whitespace class `\s` (and `String.prototype.trim`) is modelled
  by `jsWs`, covering the ASCII whitespace characters and NBSP that JS
  recognizes; the rarer Unicode space characters are omitted (no claim
  depends on them).
* Each regular expression of the source is translated into a direct
  recursive matcher with the exact leftmost-match / alternative-order /
  greedy-with-backtracking semantics of JS regexes, documented at each
  definition.
-/

/-- JS whitespace (`\s`, also used by `String.prototype.trim`):
space, tab, newline, carriage return, vertical tab, form feed, NBSP. -/
def jsWs (c : Char) : Bool :=
  c == ' ' || c == '\t' || c == '\n' || c == '\r' ||
  c == '\x0b' || c == '\x0c' || c == '\xa0'

/-- ASCII lower-casing, used to model the `i` regex flag (all label
synonyms in the source are lower-case ASCII). -/
def lowerAscii (c : Char) : Char :=
  if 'A' ≤ c ∧ c ≤ 'Z' then Char.ofNat (c.toNat + 32) else c

/-- Model of `String.prototype.trim`: drop JS whitespace from both ends. -/
def jsTrim (l : List Char) : List Char :=
  ((l.dropWhile jsWs).reverse.dropWhile jsWs).reverse

/-- Case-insensitive literal match: if the (lower-case) pattern `p` is a
case-insensitive prefix of `cs`, return the rest of `cs`. -/
def ciStrip : List Char → List Char → Option (List Char)
  | [], cs => some cs
  | _ :: _, [] => none
  | p :: ps, c :: cs => if lowerAscii c = p then ciStrip ps cs else none

/-- The backtracking tail of `\s*([^\n]+)` when the whole remaining text
`w` is whitespace: the greedy `\s*` backtracks to the last character of
`w` that is not a newline, which then forms the entire capture. -/
def capBack (w : List Char) : Option (List Char) :=
  match w.reverse.dropWhile (· == '\n') with
  | [] => none
  | c :: _ => some [c]

/-- The pattern `\s*([^\n]+)` applied at the start of `t`, returning the raw capture.
The greedy `\s*` consumes the maximal whitespace prefix; if anything is
left the capture is the maximal `[^\n]` run, otherwise the engine
backtracks inside the whitespace (`capBack`). -/
def capValue (t : List Char) : Option (List Char) :=
  match t.dropWhile jsWs with
  | [] => capBack t
  | c :: r => some ((c :: r).takeWhile (fun d => !(d == '\n')))

/-- The pattern `\s*[:=]\s*([^\n]+)` applied at the start of `t` (the text right
after a label synonym), returning the raw capture.  The `\s*` before the
delimiter is effectively possessive: a shorter match would leave a
whitespace character where `[:=]` is required. -/
def delimValue (t : List Char) : Option (List Char) :=
  match t.dropWhile jsWs with
  | c :: r => if c == ':' || c == '=' then capValue r else none
  | [] => none

/-- The final alternative of a `get` regex, `<lastSyn>\s*[:=]\s*([^\n]+)`,
tried at the start of `cs`; returns the raw capture group. -/
def lastAltAt (syn : List Char) (cs : List Char) : Option (List Char) :=
  match ciStrip syn cs with
  | some t => delimValue t
  | none => none

/-- The scan of `text.match(new RegExp(label, "i"))` for a `get` label of
the form `syn1|…|synN-1|synN\s*[:=]\s*([^\n]+)`: positions are tried left
to right; at each position the bare synonyms (which carry no capture
group) are tried before the final alternative, mirroring JS alternative
order.  A bare match produces `match[1] = undefined`, i.e. `[]` after
`|| ""`. -/
def getScan (bares : List (List Char)) (lastSyn : List Char) : List Char → List Char
  | [] => []
  | c :: cs =>
    if bares.any (fun b => (ciStrip b (c :: cs)).isSome) then []
    else
      match lastAltAt lastSyn (c :: cs) with
      | some cap => cap
      | none => getScan bares lastSyn cs

/-- Model of `get(label)` from the source:
`(text.match(new RegExp(label + "\\s*[:=]\\s*([^\\n]+)", "i"))?.[1] || "").trim()`.
`bares` are all synonyms of the alternation except the last, `lastSyn`
the last one (the only alternative carrying the delimiter and capture). -/
def getField (bares : List String) (lastSyn : String) (text : List Char) : String :=
  ⟨jsTrim (getScan (bares.map String.data) lastSyn.data text)⟩

/-- The pattern `\s*[:=]([\s\S]+)` — the tail of the steps regex after `steps?`:
whitespace, a delimiter, then a non-empty capture of everything that
remains (no `\s*` after the delimiter, so leading whitespace stays in
the capture). -/
def stepsDelimValue (t : List Char) : Option (List Char) :=
  match t.dropWhile jsWs with
  | c :: r => if c == ':' || c == '=' then (match r with | [] => none | _ :: _ => some r) else none
  | [] => none

/-- The scan of `text.match(/steps?\s*[:=]([\s\S]+)/i)`: at each position
`step` must match; the greedy `s?` first tries to consume an `s`, and
falls back to the variant without it before the scan advances. -/
def stepsScan : List Char → Option (List Char)
  | [] => none
  | c :: cs =>
    match ciStrip ['s', 't', 'e', 'p'] (c :: cs) with
    | some t =>
      match (match t with
             | c2 :: t2 => if lowerAscii c2 = 's' then stepsDelimValue t2 else none
             | [] => none) with
      | some cap => some cap
      | none =>
        match stepsDelimValue t with
        | some cap => some cap
        | none => stepsScan cs
    | none => stepsScan cs

/-- Model of `stepsBlock.split(…)` with the regex `\n|;|•|-` — split on every
occurrence of one of the four delimiter characters, keeping empty
fragments (JS `split`). -/
def splitDelims : List Char → List (List Char)
  | [] => [[]]
  | c :: cs =>
    if c == '\n' || c == ';' || c == '•' || c == '-' then
      [] :: splitDelims cs
    else
      match splitDelims cs with
      | f :: rest => (c :: f) :: rest
      | [] => [[c]]

/-- Model of `s.replace(/^\s*(\d+\.|-)/, "")` — strip one leading ordinal marker:
optional whitespace then either digits followed by a dot, or a hyphen;
if neither alternative matches, the fragment is left unchanged
(including its leading whitespace). -/
def stripMarker (cs : List Char) : List Char :=
  let r := cs.dropWhile jsWs
  let ds := r.takeWhile Char.isDigit
  if ds.length ≠ 0 ∧ (r.drop ds.length).head? = some '.' then
    r.drop (ds.length + 1)
  else
    match r with
    | '-' :: rest => rest
    | _ => cs

/-- The steps pipeline of `parseInput`: capture the block after a
`steps?` label, split it, strip ordinal markers, trim, and drop empty
fragments. -/
def parseSteps (text : List Char) : List String :=
  let block := (stepsScan text).getD []
  ((splitDelims block).map (fun f => jsTrim (stripMarker f))).filterMap
    (fun f => match f with | [] => none | _ :: _ => some ⟨f⟩)

/-- The `Parsed` interface of the source.  All fields are optional in
TypeScript (`app?: string` etc.); `parseInput` always populates them
with strings (possibly `""`), but `buildFrenchTemplates` accepts the
full optional type, so absence (`undefined`) is modelled by `none`. -/
structure Parsed where
  app : Option String
  env : Option String
  impact : Option String
  urgency : Option String
  steps : Option (List String)
  error : Option String
  when : Option String
  region : Option String
  user : Option String
  ticket : Option String
  summary : Option String

/-- Model of `parseInput` from the source: trim the raw text, run each field's
`get` and the steps pipeline against the whole trimmed text. -/
def parseInput (raw : String) : Parsed :=
  let text := jsTrim raw.data
  { app := some (getField ["app", "application", "service"] "system" text)
  , env := some (getField ["env"] "environment" text)
  , impact := some (getField [] "impact" text)
  , urgency := some (getField ["urgency", "priority", "prio"] "severity" text)
  , error := some (getField ["error", "err"] "code" text)
  , when := some (getField ["when", "since", "time"] "started" text)
  , region := some (getField ["region"] "location" text)
  , user := some (getField ["user", "requester"] "caller" text)
  , ticket := some (getField ["ticket", "ref"] "id" text)
  , summary := some ⟨text⟩
  , steps := some (parseSteps text) }

/-- JS truthiness for an optional string: `undefined` and `""` are falsy. -/
def truthy : Option String → Bool
  | none => false
  | some s => !(s == "")

/-- A conditional template piece `o ? f(o) : null` guarded by truthiness. -/
def optIf (o : Option String) (f : String → String) : Option String :=
  match o with
  | none => none
  | some s => if s == "" then none else some (f s)

/-- Model of `.filter(Boolean)` on an array of `string | null`: drop `null` and
empty strings. -/
def jsFilterTruthy (l : List (Option String)) : List String :=
  (l.filterMap id).filter (fun s => !(s == ""))

/-- Model of `Array.prototype.join(sep)`. -/
def joinSep (sep : String) : List String → String
  | [] => ""
  | [a] => a
  | a :: b :: rest => a ++ sep ++ joinSep sep (b :: rest)

/-- The `titre` template before the `||` fallback:
`[app?, error?, impact?].filter(Boolean).join(" ").slice(0, 120)`. -/
def titreRaw (p : Parsed) : String :=
  ⟨(joinSep " " (jsFilterTruthy
      [ optIf p.app (fun a => a ++ ":")
      , optIf p.error (fun e => e)
      , optIf p.impact (fun i => "– impact " ++ i) ])).data.take 120⟩

/-- The title as returned by `buildFrenchTemplates`:
`titre || "Incident – détails à préciser"`. -/
def titre (p : Parsed) : String :=
  if titreRaw p == "" then "Incident – détails à préciser" else titreRaw p

/-- The first description line; note that `p.app ?? "application non
précisée"` uses nullish coalescing, so an *empty* application string is
kept as-is (only `undefined` triggers the placeholder), while the
`p.env ? … : ""` part uses truthiness. -/
def contexteLine (p : Parsed) : String :=
  "Contexte: " ++ p.app.getD "application non précisée" ++
  (match p.env with
   | some e => if e == "" then "" else " (env: " ++ e ++ ")"
   | none => "") ++ "."

/-- The line array of the `description` template, after `.filter(Boolean)`. -/
def descriptionLines (p : Parsed) : List String :=
  jsFilterTruthy
    [ some (contexteLine p)
    , optIf p.when (fun w => "Début observé: " ++ w ++ ".")
    , optIf p.region (fun r => "Zone concernée: " ++ r ++ ".")
    , optIf p.impact (fun i => "Impact déclaré: " ++ i ++ ".")
    , optIf p.urgency (fun u => "Priorité/Sévérité: " ++ u ++ ".")
    , optIf p.error (fun e => "Symptômes/erreur: " ++ e ++ ".") ]

/-- The `description` template: lines joined with a single newline. -/
def description (p : Parsed) : String :=
  joinSep "\n" (descriptionLines p)

/-- Model of the step-line map of the source starting at
zero-based index `i`. -/
def stepLinesFrom : Nat → List String → List String
  | _, [] => []
  | i, s :: ss => ("- Étape " ++ toString (i + 1) ++ ": " ++ s) :: stepLinesFrom (i + 1) ss

/-- The steps block of the work notes:
`p.steps?.length ? p.steps.map(…).join("\n") : "- Aucune étape fournie."`. -/
def stepsStr (p : Parsed) : String :=
  match p.steps with
  | some (s :: ss) => joinSep "\n" (stepLinesFrom 0 (s :: ss))
  | _ => "- Aucune étape fournie."

/-- The block array of the `workNotes` template, after `.filter(Boolean)`.
`ts` is the wall-clock timestamp `new Date().toLocaleString("fr-FR")`,
taken as a parameter to keep the embedding pure. -/
def workNotesBlocks (ts : String) (p : Parsed) : List String :=
  jsFilterTruthy
    [ some ("[" ++ ts ++ "] Prise en charge de l'incident.")
    , optIf p.user (fun u => "Appelant: " ++ u ++ ".")
    , some (description p)
    , some ("Actions réalisées:\n" ++ stepsStr p)
    , some "Prochaines actions: analyse des journaux, corrélation des alertes, vérification dépendances."
    , some "Surveillance continue en place." ]

/-- The `workNotes` template: blocks joined with a blank line. -/
def workNotes (ts : String) (p : Parsed) : String :=
  joinSep "\n\n" (workNotesBlocks ts p)

/-- The optional `(erreur: …)` suffix of the user-comment investigation
sentence, guarded by truthiness of `p.error`. -/
def errSuffix (p : Parsed) : String :=
  match p.error with
  | some e => if e == "" then "" else " (erreur: " ++ e ++ ")"
  | none => ""

/-- The investigation sentence of the user comment: application-specific
when `p.app` is truthy, generic otherwise. -/
def investLine (p : Parsed) : String :=
  if truthy p.app then
    "Nous investiguons actuellement un souci affectant " ++ p.app.getD "" ++ errSuffix p ++ "."
  else
    "Nous investiguons actuellement le souci signalé" ++ errSuffix p ++ "."

/-- The `userComment` template exactly as in the source: the line array
filtered by `Boolean` and joined with `" \n"` (a space followed by a
newline). -/
def userComment (p : Parsed) : String :=
  joinSep " \n" (jsFilterTruthy
    [ some "Bonjour,"
    , some (investLine p)
    , optIf p.impact (fun i => "Impact déclaré: " ++ i ++ ".")
    , some "Nos équipes sont mobilisées. Nous vous tiendrons informé de l'avancement."
    , some "Merci de votre patience." ])

/-- The constituent lines of the user comment as the specification
describes them: fixed greeting, investigation sentence, optional
declared-impact line, fixed reassurance sentence, fixed closing
sentence. -/
def userCommentLines (p : Parsed) : List String :=
  ["Bonjour,", investLine p] ++
  (if truthy p.impact then ["Impact déclaré: " ++ p.impact.getD "" ++ "."] else []) ++
  ["Nos équipes sont mobilisées. Nous vous tiendrons informé de l'avancement.",
   "Merci de votre patience."]

/-- The four artifacts of `buildFrenchTemplates`. -/
structure RenderedNotes where
  titre : String
  description : String
  workNotes : String
  userComment : String

/-- Model of `buildFrenchTemplates(p)`, with the embedded timestamp `ts` as a
parameter. -/
def buildFrenchTemplates (ts : String) (p : Parsed) : RenderedNotes :=
  { titre := titre p
  , description := description p
  , workNotes := workNotes ts p
  , userComment := userComment p }

/-- The EN→FR `GLOSSARY` of the offline fallback, verbatim. -/
def GLOSSARY : List (String × String) :=
  [ ("incident", "incident"), ("outage", "panne"), ("degraded", "dégradée")
  , ("performance", "performance"), ("user", "utilisateur"), ("users", "utilisateurs")
  , ("customer", "client"), ("customers", "clients"), ("error", "erreur")
  , ("failure", "défaillance"), ("login", "connexion"), ("authentication", "authentification")
  , ("authorization", "autorisation"), ("payment", "paiement"), ("database", "base de données")
  , ("server", "serveur"), ("network", "réseau"), ("latency", "latence")
  , ("timeout", "dépassement de délai"), ("retry", "réessai"), ("restarted", "redémarré")
  , ("restart", "redémarrer"), ("cache", "cache"), ("cleared", "vidé")
  , ("escalated", "escaladé"), ("escalation", "escalade"), ("root", "racine")
  , ("cause", "cause"), ("suspected", "suspectée"), ("temporary", "temporaire")
  , ("workaround", "solution de contournement"), ("fix", "correctif"), ("deployed", "déployé")
  , ("monitoring", "surveillance"), ("logs", "journaux"), ("alert", "alerte")
  , ("alerts", "alertes"), ("region", "région"), ("europe", "Europe")
  , ("us", "États-Unis"), ("production", "production"), ("staging", "pré-production")
  , ("severity", "sévérité"), ("high", "élevée"), ("medium", "moyenne"), ("low", "faible") ]

/-- The regex word class `\w` (`[A-Za-z0-9_]`), which defines `\b`. -/
def isWordChar (c : Char) : Bool :=
  c.isUpper || c.isLower || c.isDigit || c == '_'

/-- The character class `[A-Za-z']` matched by the glossary word regex. -/
def isWordish (c : Char) : Bool :=
  c.isUpper || c.isLower || c == '\''

/-- The boundary `\b` between an optional previous character and the current one:
exactly one of the two sides is a `\w` character (string start counts
as a non-word side). -/
def boundaryB (prev : Option Char) (c : Char) : Bool :=
  (match prev with | none => false | some p => isWordChar p) != isWordChar c

/-- The boundary `\b` between the last matched character and the optional next one. -/
def endBoundaryB (c : Char) (next : Option Char) : Bool :=
  isWordChar c != (match next with | none => false | some d => isWordChar d)

/-- Backtracking of the greedy `([A-Za-z']+)\b`: given the maximal
wordish run and the character following it, return the longest prefix
length (at least 1) at which `\b` holds, preferring longer prefixes as
the greedy `+` does. -/
def findEnd : List Char → Option Char → Option { k : Nat // 1 ≤ k }
  | [], _ => none
  | [c], after => if endBoundaryB c after then some ⟨1, Nat.le_refl 1⟩ else none
  | c :: d :: rest, after =>
    match findEnd (d :: rest) after with
    | some ⟨k, hk⟩ => some ⟨k + 1, Nat.le_succ_of_le hk⟩
    | none => if endBoundaryB c (some d) then some ⟨1, Nat.le_refl 1⟩ else none

/-- Model of `GLOSSARY[m.toLowerCase()] ?? m` for a matched word `m`. -/
def glossaryLookup (m : List Char) : List Char :=
  match GLOSSARY.lookup (String.mk (m.map lowerAscii)) with
  | some t => t.data
  | none => m

/-- The global replace `text.replace(…, m => GLOSSARY[m.toLowerCase()] ?? m)`
with the regex `\b([A-Za-z']+)\b`: scan left to right; at a position
where `\b` holds and a wordish character starts, match the longest run
of `[A-Za-z']` whose end also satisfies `\b`, replace it via the
glossary, and continue after the match (`prev` tracks the character of
the original text preceding the current position). -/
def glossaryAux : (cs : List Char) → (prev : Option Char) → List Char
  | [], _ => []
  | c :: rest, prev =>
    if isWordish c && boundaryB prev c then
      match findEnd ((c :: rest).takeWhile isWordish)
              (((c :: rest).drop ((c :: rest).takeWhile isWordish).length).head?) with
      | some ⟨k, _⟩ =>
        glossaryLookup ((c :: rest).take k) ++
          glossaryAux ((c :: rest).drop k) (((c :: rest).take k).getLast?)
      | none => c :: glossaryAux rest (some c)
    else c :: glossaryAux rest (some c)
termination_by cs _ => cs.length
decreasing_by
  all_goals simp only [List.length_drop, List.length_cons]
  · omega
  · omega
  · omega

/-- Model of `simpleTranslate` from the source.  The two trailing replaces
(`\bETA\b` → `"ETA"` and `\bSLA\b` → `"SLA"`) substitute each match with
itself and are string-level identities, so only the glossary pass and
the draft-marker prefix are observable. -/
def simpleTranslate (text : String) : String :=
  "⟦Brouillon – traduction approximative⟧ " ++ ⟨glossaryAux text.data none⟩

/-- The outcome of the `fetch` call in `libreTranslate`: either an HTTP
response (status plus the optional `translatedText` of the JSON body) or
a thrown exception (network failure, invalid JSON, …). -/
inductive FetchOutcome where
  | response (status : Nat) (translatedText : Option String)
  | exception

/-- Model of `res.ok`: the HTTP status is in the 2xx range. -/
def statusOk (status : Nat) : Bool :=
  decide (200 ≤ status ∧ status ≤ 299)

/-- Model of `libreTranslate` from the source, with the network modelled by a
`FetchOutcome` parameter: on a 2xx response return
`data?.translatedText ?? text`; a non-ok response throws
(`throw new Error(await res.text())`) and, like any other exception, is
caught and downgraded to `simpleTranslate` — no error escapes. -/
def libreTranslate (text : String) (outcome : FetchOutcome) : String :=
  match outcome with
  | .response status translatedText =>
    if statusOk status then translatedText.getD text
    else simpleTranslate text
  | .exception => simpleTranslate text

/-! ### Label-occurrence predicates

`labelAtB syn cs` says a label occurrence — the synonym followed by
optional whitespace and `:` or `=` — starts exactly at the head of `cs`;
`labelValueAtB` additionally requires the captured value to be non-empty
after trimming.  `hasLabelB` / `hasLabelValueB` quantify over all
positions of the text.  These are the notions of "the label pattern
matched in the input" used by the claims. -/

/-- A label (synonym, optional whitespace, `:` or `=`) starts at the
head of `cs`. -/
def labelAtB (syn : List Char) (cs : List Char) : Bool :=
  match ciStrip syn cs with
  | some t =>
    match t.dropWhile jsWs with
    | c :: _ => c == ':' || c == '='
    | [] => false
  | none => false

/-- A label with a (post-trim non-empty) value starts at the head of `cs`. -/
def labelValueAtB (syn : List Char) (cs : List Char) : Bool :=
  match lastAltAt syn cs with
  | some cap => !(jsTrim cap == [])
  | none => false

/-- Some position of `cs` starts a label occurrence of `syn`. -/
def hasLabelB (syn : List Char) : List Char → Bool
  | [] => false
  | c :: cs => labelAtB syn (c :: cs) || hasLabelB syn cs

/-- Some position of `cs` starts a label occurrence of `syn` with a
non-empty value. -/
def hasLabelValueB (syn : List Char) : List Char → Bool
  | [] => false
  | c :: cs => labelValueAtB syn (c :: cs) || hasLabelValueB syn cs

/-- All label synonyms recognized anywhere in `parseInput` (scalar
fields and the steps block). -/
def synonymsAll : List String :=
  [ "app", "application", "service", "system"
  , "env", "environment"
  , "impact"
  , "urgency", "priority", "prio", "severity"
  , "error", "err", "code"
  , "when", "since", "time", "started"
  , "region", "location"
  , "user", "requester", "caller"
  , "ticket", "ref", "id"
  , "step", "steps" ]

/-- The input contains no recognized label: no synonym anywhere is
followed by optional whitespace and `:` or `=`. -/
def noLabels (s : String) : Bool :=
  synonymsAll.all (fun syn => !(hasLabelB syn.data s.data))

/-- The input contains no steps label (`step` or `steps` followed by
optional whitespace and `:` or `=`). -/
def noStepsLabelB (s : String) : Bool :=
  !(hasLabelB "step".data s.data) && !(hasLabelB "steps".data s.data)

lemma labelAtB_of_lastAltAt {syn cs cap} (h : lastAltAt syn cs = some cap) :
    labelAtB syn cs = true := by
  unfold lastAltAt at h
  unfold labelAtB
  cases hs : ciStrip syn cs with
  | none => simp only [hs] at h; exact Option.noConfusion h
  | some t =>
    simp only [hs] at h ⊢
    unfold delimValue at h
    cases hd : List.dropWhile jsWs t with
    | nil => simp only [hd] at h; exact Option.noConfusion h
    | cons c r =>
      simp only [hd] at h ⊢
      by_cases hc : (c == ':' || c == '=') = true
      · exact hc
      · simp only [if_neg hc] at h; exact Option.noConfusion h

/-- If no position of `cs` carries a label of the last synonym, the
regex never matches and the scan returns the empty capture. -/
lemma getScan_nil_of_no_label {syn : List Char} (bares : List (List Char)) :
    ∀ cs : List Char, hasLabelB syn cs = false → getScan bares syn cs = [] := by
  intro cs
  induction cs with
  | nil => intro _; rfl
  | cons c cs ih =>
    intro h
    unfold hasLabelB at h
    simp only [Bool.or_eq_false_iff] at h
    unfold getScan
    by_cases hb : (bares.any fun b => (ciStrip b (c :: cs)).isSome) = true
    · simp [hb]
    · rw [if_neg hb]
      cases hl : lastAltAt syn (c :: cs) with
      | some cap => exact absurd (labelAtB_of_lastAltAt hl) (by simp [h.1])
      | none => exact ih h.2

/-- If the scan produces a capture that is non-empty after trimming,
some position of the text carries the last synonym with a delimiter and
a non-empty value. -/
lemma hasLabelValueB_of_getScan {syn : List Char} (bares : List (List Char)) :
    ∀ cs : List Char, jsTrim (getScan bares syn cs) ≠ [] →
      hasLabelValueB syn cs = true := by
  intro cs
  induction cs with
  | nil => intro h; exact absurd rfl h
  | cons c cs ih =>
    intro h
    unfold getScan at h
    by_cases hb : (bares.any fun b => (ciStrip b (c :: cs)).isSome) = true
    · rw [if_pos hb] at h; exact absurd rfl h
    · rw [if_neg hb] at h
      unfold hasLabelValueB
      cases hl : lastAltAt syn (c :: cs) with
      | some cap =>
        rw [hl] at h
        have : labelValueAtB syn (c :: cs) = true := by
          unfold labelValueAtB
          rw [hl]
          simpa using h
        simp [this]
      | none =>
        rw [hl] at h
        simp [ih h]


/-! ### Occurrence predicates are preserved by surrounding context

`parseInput` matches against the trimmed text; the claims speak about
the raw input.  These lemmas transport a label occurrence from the
trimmed text (an infix of the raw text) to the raw text. -/

lemma ciStrip_of_ciStrip {p : List Char} :
    ∀ {r t v : List Char}, ciStrip p r = some t → ciStrip p (r ++ v) = some (t ++ v) := by
  induction p with
  | nil => intro r t v h; cases h; rfl
  | cons a ps ih =>
    intro r t v h
    cases r with
    | nil => exact Option.noConfusion h
    | cons c r =>
      simp only [ciStrip, List.cons_append] at h ⊢
      by_cases hc : lowerAscii c = a
      · rw [if_pos hc] at h ⊢; exact ih h
      · rw [if_neg hc] at h; exact Option.noConfusion h

lemma dropWhile_append_of_ne_nil {p : α → Bool} :
    ∀ {l : List α}, l.dropWhile p ≠ [] →
      ∀ l' : List α, (l ++ l').dropWhile p = l.dropWhile p ++ l' := by
  intro l
  induction l with
  | nil => intro h; exact absurd rfl h
  | cons a l ih =>
    intro h l'
    by_cases ha : p a = true
    · rw [List.dropWhile_cons_of_pos ha] at h
      rw [List.cons_append, List.dropWhile_cons_of_pos ha,
        List.dropWhile_cons_of_pos ha, ih h]
    · rw [List.cons_append, List.dropWhile_cons_of_neg ha,
        List.dropWhile_cons_of_neg ha, List.cons_append]

lemma labelAtB_append {syn r : List Char} (h : labelAtB syn r = true)
    (v : List Char) : labelAtB syn (r ++ v) = true := by
  unfold labelAtB at h ⊢
  cases hs : ciStrip syn r with
  | none => simp only [hs] at h; exact Bool.noConfusion h
  | some t =>
    simp only [hs] at h
    rw [ciStrip_of_ciStrip hs]
    cases hd : List.dropWhile jsWs t with
    | nil => simp only [hd] at h; exact Bool.noConfusion h
    | cons c rest =>
      simp only [hd] at h
      have hne : List.dropWhile jsWs t ≠ [] := by rw [hd]; simp
      simp only [dropWhile_append_of_ne_nil hne, hd, List.cons_append]
      exact h

/-- A list starting with a non-whitespace character trims to something
non-empty. -/
lemma jsTrim_ne_nil_of_head {c : Char} (hc : jsWs c = false) (l : List Char) :
    jsTrim (c :: l) ≠ [] := by
  unfold jsTrim
  rw [List.dropWhile_cons_of_neg (by simp [hc])]
  intro h
  have h3 : (c :: l).reverse.dropWhile jsWs = [] := by
    have := congrArg List.reverse h
    simpa using this
  have hall := List.dropWhile_eq_nil_iff.mp h3
  have := hall c (by simp)
  rw [hc] at this
  exact Bool.noConfusion this

lemma labelValueAtB_append {syn r : List Char} (h : labelValueAtB syn r = true)
    (v : List Char) : labelValueAtB syn (r ++ v) = true := by
  unfold labelValueAtB lastAltAt at h ⊢
  cases hs : ciStrip syn r with
  | none => simp only [hs] at h; exact Bool.noConfusion h
  | some t =>
    simp only [hs] at h
    rw [ciStrip_of_ciStrip hs]
    unfold delimValue at h ⊢
    cases hd : List.dropWhile jsWs t with
    | nil => simp only [hd] at h; exact Bool.noConfusion h
    | cons c rest =>
      simp only [hd] at h
      have hne : List.dropWhile jsWs t ≠ [] := by rw [hd]; simp
      simp only [dropWhile_append_of_ne_nil hne, hd, List.cons_append]
      by_cases hc : (c == ':' || c == '=') = true
      · rw [if_pos hc] at h ⊢
        unfold capValue at h ⊢
        cases hr : List.dropWhile jsWs rest with
        | nil =>
          -- the remainder is all whitespace, so the backtracking capture
          -- is a single whitespace character whose trim is empty,
          -- contradicting `h`
          exfalso
          have hallws := List.dropWhile_eq_nil_iff.mp hr
          simp only [hr] at h
          unfold capBack at h
          cases hb : List.dropWhile (fun x => x == '\n') rest.reverse with
          | nil => simp only [hb] at h; exact Bool.noConfusion h
          | cons b bs =>
            simp only [hb] at h
            have hbmem : b ∈ rest := by
              have hsub : List.Sublist
                  (List.dropWhile (fun x => x == '\n') rest.reverse) rest.reverse :=
                List.dropWhile_sublist _
              rw [hb] at hsub
              have : b ∈ rest.reverse := hsub.subset (List.mem_cons_self b bs)
              simpa using this
            have hbws : jsWs b = true := hallws b hbmem
            have htr : jsTrim [b] = [] := by
              unfold jsTrim
              rw [List.dropWhile_cons_of_pos hbws]
              rfl
            rw [htr] at h
            simp at h
        | cons d ds =>
          -- the capture starts with the non-whitespace character `d`,
          -- both before and after appending `v`; its trim is non-empty
          have hrne : List.dropWhile jsWs rest ≠ [] := by rw [hr]; simp
          simp only [dropWhile_append_of_ne_nil hrne, hr, List.cons_append]
          have hd2 : jsWs d = false := by
            have hh := List.head?_dropWhile_not jsWs rest
            rw [hr] at hh
            simpa using hh
          have hdn : (!(d == '\n')) = true := by
            have : ¬ d = '\n' := by
              intro hdeq
              rw [hdeq] at hd2
              simp [jsWs] at hd2
            simp [this]
          rw [@List.takeWhile_cons_of_pos Char (fun x => !(x == '\n')) d (ds ++ v) hdn]
          have := jsTrim_ne_nil_of_head hd2
            (List.takeWhile (fun x => !(x == '\n')) (ds ++ v))
          simpa using this
      · rw [if_neg hc] at h; exact Bool.noConfusion h

lemma hasLabelB_append_right {syn m : List Char} (h : hasLabelB syn m = true)
    (v : List Char) : hasLabelB syn (m ++ v) = true := by
  induction m with
  | nil => exact Bool.noConfusion h
  | cons c cs ih =>
    unfold hasLabelB at h ⊢
    rcases Bool.or_eq_true_iff.mp h with h1 | h2
    · have := labelAtB_append h1 v
      rw [List.cons_append] at this ⊢
      simp [this]
    · rw [List.cons_append]
      simp [ih h2]

lemma hasLabelB_append_left {syn m : List Char} (h : hasLabelB syn m = true) :
    ∀ u : List Char, hasLabelB syn (u ++ m) = true := by
  intro u
  induction u with
  | nil => exact h
  | cons a u ih =>
    rw [List.cons_append]
    cases hu : u ++ m with
    | nil => rw [hu] at ih; exact Bool.noConfusion ih
    | cons x xs =>
      rw [hu] at ih
      unfold hasLabelB
      simp [ih]

lemma hasLabelValueB_append_right {syn m : List Char}
    (h : hasLabelValueB syn m = true) (v : List Char) :
    hasLabelValueB syn (m ++ v) = true := by
  induction m with
  | nil => exact Bool.noConfusion h
  | cons c cs ih =>
    unfold hasLabelValueB at h ⊢
    rcases Bool.or_eq_true_iff.mp h with h1 | h2
    · have := labelValueAtB_append h1 v
      rw [List.cons_append] at this ⊢
      simp [this]
    · rw [List.cons_append]
      simp [ih h2]

lemma hasLabelValueB_append_left {syn m : List Char}
    (h : hasLabelValueB syn m = true) :
    ∀ u : List Char, hasLabelValueB syn (u ++ m) = true := by
  intro u
  induction u with
  | nil => exact h
  | cons a u ih =>
    rw [List.cons_append]
    cases hu : u ++ m with
    | nil => rw [hu] at ih; exact Bool.noConfusion ih
    | cons x xs =>
      rw [hu] at ih
      unfold hasLabelValueB
      simp [ih]

/-- Trimming only removes an all-whitespace prefix and suffix: the
trimmed text sits as an infix inside the original. -/
lemma jsTrim_decomp (l : List Char) :
    l = l.takeWhile jsWs ++ jsTrim l ++ ((l.dropWhile jsWs).reverse.takeWhile jsWs).reverse := by
  unfold jsTrim
  conv_lhs => rw [← List.takeWhile_append_dropWhile jsWs l]
  rw [List.append_assoc]
  congr 1
  conv_lhs => rw [← List.reverse_reverse (List.dropWhile jsWs l)]
  conv_lhs =>
    rw [← List.takeWhile_append_dropWhile jsWs (List.dropWhile jsWs l).reverse]
  rw [List.reverse_append]

lemma hasLabelB_of_jsTrim {syn l : List Char}
    (h : hasLabelB syn (jsTrim l) = true) : hasLabelB syn l = true := by
  conv_lhs => rw [jsTrim_decomp l]
  rw [List.append_assoc]
  exact hasLabelB_append_left (hasLabelB_append_right h _) _

lemma hasLabelValueB_of_jsTrim {syn l : List Char}
    (h : hasLabelValueB syn (jsTrim l) = true) : hasLabelValueB syn l = true := by
  conv_lhs => rw [jsTrim_decomp l]
  rw [List.append_assoc]
  exact hasLabelValueB_append_left (hasLabelValueB_append_right h _) _

/-! ### String and join helpers -/

lemma str_of_data {a b : String} (h : a.data = b.data) : a = b := by
  cases a; cases b; simp at h; rw [h]

lemma head?_append_of_cons {a : String} {c : Char} {l : List Char}
    (h : a.data = c :: l) (x : String) : (a ++ x).data.head? = some c := by
  rw [String.data_append, h]
  rfl

lemma ne_of_head? {a b : String} {c d : Char} (ha : a.data.head? = some c)
    (hb : b.data.head? = some d) (hcd : c ≠ d) : a ≠ b := by
  intro heq
  rw [heq, hb] at ha
  exact hcd (Option.some.injEq .. ▸ ha).symm

lemma ne_empty_of_head? {a : String} {c : Char} (ha : a.data.head? = some c) :
    a ≠ "" := by
  intro heq
  rw [heq] at ha
  exact Option.noConfusion ha

/-- Any member of the joined list occurs verbatim inside the join. -/
lemma joinSep_mem {sep x : String} : ∀ {l : List String}, x ∈ l →
    ∃ a b : String, joinSep sep l = a ++ x ++ b := by
  intro l
  induction l with
  | nil => intro h; exact absurd h (List.not_mem_nil x)
  | cons y rest ih =>
    intro h
    rcases List.mem_cons.mp h with rfl | h2
    · cases rest with
      | nil =>
        refine ⟨"", "", ?_⟩
        show x = "" ++ x ++ ""
        apply str_of_data
        simp [String.data_append]
      | cons z t =>
        refine ⟨"", sep ++ joinSep sep (z :: t), ?_⟩
        show x ++ sep ++ joinSep sep (z :: t) = "" ++ x ++ (sep ++ joinSep sep (z :: t))
        apply str_of_data
        simp [String.data_append]
    · cases rest with
      | nil => exact absurd h2 (List.not_mem_nil x)
      | cons z t =>
        obtain ⟨a, b, hab⟩ := ih h2
        refine ⟨y ++ sep ++ a, b, ?_⟩
        show y ++ sep ++ joinSep sep (z :: t) = y ++ sep ++ a ++ x ++ b
        rw [hab]
        apply str_of_data
        simp [String.data_append]

/-- The join of a list whose head starts with character `c` also starts
with `c`; in particular it is non-empty. -/
lemma joinSep_head {sep x : String} {c : Char} {l : List Char}
    (hx : x.data = c :: l) (rest : List String) :
    (joinSep sep (x :: rest)).data.head? = some c := by
  cases rest with
  | nil => rw [show joinSep sep [x] = x from rfl, hx]; rfl
  | cons z t =>
    show ((x ++ sep ++ joinSep sep (z :: t)).data).head? = some c
    rw [String.append_assoc]
    exact head?_append_of_cons hx _

/-- Lemma: `optIf` yields `none` exactly on falsy (absent or empty) fields. -/
lemma optIf_eq_none {o : Option String} {f : String → String}
    (h : truthy o = false) : optIf o f = none := by
  cases o with
  | none => rfl
  | some s =>
    simp only [truthy] at h
    have hs : (s == "") = true := by
      cases hb : (s == "") with
      | true => rfl
      | false => rw [hb] at h; simp at h
    simp only [optIf]
    rw [if_pos hs]

/-- Anything `optIf` produces is the line builder applied to some value. -/
lemma optIf_eq_some {o : Option String} {f : String → String} {y : String}
    (h : optIf o f = some y) : ∃ s, y = f s := by
  cases o with
  | none => exact Option.noConfusion h
  | some s =>
    simp only [optIf] at h
    split at h
    · exact Option.noConfusion h
    · refine ⟨s, ?_⟩
      injection h with h2
      rw [h2]

/-- If the three title fields are all empty strings, the rendered title
is the fixed fallback sentence. -/
lemma titre_of_empty {p : Parsed} (ha : p.app = some "") (he : p.error = some "")
    (hi : p.impact = some "") : titre p = "Incident – détails à préciser" := by
  have hraw : titreRaw p = "" := by
    unfold titreRaw
    rw [ha, he, hi]
    rfl
  unfold titre
  rw [hraw]
  rfl

/-! ### The environment field and the steps scan -/

lemma ciStrip_append_pat (p q : List Char) :
    ∀ cs, ciStrip (p ++ q) cs = (ciStrip p cs).bind (fun t => ciStrip q t) := by
  induction p with
  | nil => intro cs; rfl
  | cons a ps ih =>
    intro cs
    cases cs with
    | nil => rfl
    | cons c cs =>
      simp only [List.cons_append, ciStrip]
      by_cases hc : lowerAscii c = a
      · simp only [if_pos hc]; exact ih cs
      · simp only [if_neg hc]; rfl

/-- Because `env` is a prefix of `environment`, the bare alternative
`env` matches at every position where the full alternative could, and
it is tried first: the scan for the environment field always returns
the empty capture. -/
lemma getScan_env_nil : ∀ cs, getScan ["env".data] "environment".data cs = [] := by
  intro cs
  induction cs with
  | nil => rfl
  | cons c cs ih =>
    unfold getScan
    by_cases hb : (([ "env".data ] : List (List Char)).any
        fun b => (ciStrip b (c :: cs)).isSome) = true
    · simp [hb]
    · rw [if_neg hb]
      cases hl : lastAltAt "environment".data (c :: cs) with
      | some cap =>
        exfalso
        unfold lastAltAt at hl
        cases hs : ciStrip "environment".data (c :: cs) with
        | none => simp only [hs] at hl; exact Option.noConfusion hl
        | some t =>
          have hsplit : ciStrip ("env".data ++ "ironment".data) (c :: cs) = some t := hs
          rw [ciStrip_append_pat] at hsplit
          apply hb
          simp only [List.any_cons, List.any_nil, Bool.or_false]
          cases he : ciStrip "env".data (c :: cs) with
          | none => rw [he] at hsplit; exact Option.noConfusion hsplit
          | some u => simp [he]
      | none => exact ih

lemma labelAtB_of_ciStrip_delim {syn cs t cap : List Char}
    (hs : ciStrip syn cs = some t) (hd : stepsDelimValue t = some cap) :
    labelAtB syn cs = true := by
  unfold labelAtB
  simp only [hs]
  unfold stepsDelimValue at hd
  cases hdw : List.dropWhile jsWs t with
  | nil => simp only [hdw] at hd; exact Option.noConfusion hd
  | cons c' r' =>
    simp only [hdw] at hd ⊢
    by_cases hdelim : (c' == ':' || c' == '=') = true
    · exact hdelim
    · rw [if_neg hdelim] at hd; exact Option.noConfusion hd

/-- If neither a `step` nor a `steps` label occurs anywhere in the text,
the steps regex never matches. -/
lemma stepsScan_none : ∀ cs : List Char, hasLabelB "step".data cs = false →
    hasLabelB "steps".data cs = false → stepsScan cs = none := by
  intro cs
  induction cs with
  | nil => intro _ _; rfl
  | cons c cs ih =>
    intro h1 h2
    unfold hasLabelB at h1 h2
    simp only [Bool.or_eq_false_iff] at h1 h2
    unfold stepsScan
    cases hs : ciStrip ['s', 't', 'e', 'p'] (c :: cs) with
    | none => exact ih h1.2 h2.2
    | some t =>
      cases t with
      | nil =>
        exact ih h1.2 h2.2
      | cons c2 t2 =>
        show (match (if lowerAscii c2 = 's' then stepsDelimValue t2 else none) with
              | some cap => some cap
              | none =>
                match stepsDelimValue (c2 :: t2) with
                | some cap => some cap
                | none => stepsScan cs) = none
        by_cases hc2 : lowerAscii c2 = 's'
        · rw [if_pos hc2]
          cases hsd : stepsDelimValue t2 with
          | some cap =>
            exfalso
            have hfull : ciStrip "steps".data (c :: cs) = some t2 := by
              have heq : ("steps".data : List Char) =
                  ['s', 't', 'e', 'p'] ++ ['s'] := rfl
              rw [heq, ciStrip_append_pat, hs]
              show ciStrip ['s'] (c2 :: t2) = some t2
              simp only [ciStrip, if_pos hc2]
            have := labelAtB_of_ciStrip_delim hfull hsd
            rw [this] at h2
            exact Bool.noConfusion h2.1
          | none =>
            cases hsd2 : stepsDelimValue (c2 :: t2) with
            | some cap =>
              exfalso
              have hstep : ciStrip "step".data (c :: cs) = some (c2 :: t2) := hs
              have := labelAtB_of_ciStrip_delim hstep hsd2
              rw [this] at h1
              exact Bool.noConfusion h1.1
            | none => exact ih h1.2 h2.2
        · rw [if_neg hc2]
          cases hsd2 : stepsDelimValue (c2 :: t2) with
          | some cap =>
            exfalso
            have hstep : ciStrip "step".data (c :: cs) = some (c2 :: t2) := hs
            have := labelAtB_of_ciStrip_delim hstep hsd2
            rw [this] at h1
            exact Bool.noConfusion h1.1
          | none => exact ih h1.2 h2.2

/-! ### Heads of rendered lines, membership in the description -/

lemma data_head_append {a : String} {c : Char} {l : List Char}
    (h : a.data = c :: l) (x : String) : ∃ l', (a ++ x).data = c :: l' :=
  ⟨l ++ x.data, by rw [String.data_append, h]; rfl⟩

lemma head?_of_data {a : String} {c : Char} {l : List Char}
    (h : a.data = c :: l) : a.data.head? = some c := by rw [h]; rfl

/-- The head character of a line of the shape `lit ++ x ++ "."`. -/
lemma head?_line {lit : String} {c : Char} {l : List Char}
    (h : lit.data = c :: l) (x y : String) : (lit ++ x ++ y).data.head? = some c := by
  obtain ⟨l1, h1⟩ := data_head_append h x
  obtain ⟨l2, h2⟩ := data_head_append h1 y
  exact head?_of_data h2

lemma mem_descriptionLines {p : Parsed} {y : String} (h : y ∈ descriptionLines p) :
    y = contexteLine p ∨
    optIf p.when (fun w => "Début observé: " ++ w ++ ".") = some y ∨
    optIf p.region (fun r => "Zone concernée: " ++ r ++ ".") = some y ∨
    optIf p.impact (fun i => "Impact déclaré: " ++ i ++ ".") = some y ∨
    optIf p.urgency (fun u => "Priorité/Sévérité: " ++ u ++ ".") = some y ∨
    optIf p.error (fun e => "Symptômes/erreur: " ++ e ++ ".") = some y := by
  unfold descriptionLines jsFilterTruthy at h
  have h2 := (List.mem_filter.mp h).1
  rcases List.mem_filterMap.mp h2 with ⟨o, ho, hid⟩
  simp only [id_eq] at hid
  subst hid
  simp only [List.mem_cons, List.not_mem_nil, or_false] at ho
  rcases ho with h1 | h1 | h1 | h1 | h1 | h1
  · left; injection h1.symm with hy; exact hy.symm
  · right; left; exact h1.symm
  · right; right; left; exact h1.symm
  · right; right; right; left; exact h1.symm
  · right; right; right; right; left; exact h1.symm
  · right; right; right; right; right; exact h1.symm

lemma contexteLine_head (p : Parsed) :
    ∃ l, (contexteLine p).data = 'C' :: l := by
  unfold contexteLine
  have h0 : ("Contexte: " : String).data = 'C' :: "ontexte: ".data := rfl
  obtain ⟨l1, h1⟩ := data_head_append h0 (p.app.getD "application non précisée")
  obtain ⟨l2, h2⟩ := data_head_append h1 _
  obtain ⟨l3, h3⟩ := data_head_append h2 "."
  exact ⟨l3, h3⟩

/-- The empty string is never a description line: `.filter(Boolean)`
removes empties, so an absent field yields no (empty) line at all. -/
lemma empty_not_mem_descriptionLines (p : Parsed) : "" ∉ descriptionLines p := by
  intro h
  unfold descriptionLines jsFilterTruthy at h
  have := (List.mem_filter.mp h).2
  simp at this

lemma when_lit : ("Début observé: " : String).data = 'D' :: "ébut observé: ".data := rfl

lemma region_lit : ("Zone concernée: " : String).data = 'Z' :: "one concernée: ".data := rfl

lemma impact_lit : ("Impact déclaré: " : String).data = 'I' :: "mpact déclaré: ".data := rfl

lemma urgency_lit : ("Priorité/Sévérité: " : String).data = 'P' :: "riorité/Sévérité: ".data := rfl

lemma error_lit : ("Symptômes/erreur: " : String).data = 'S' :: "ymptômes/erreur: ".data := rfl

lemma line_ne_line {litA litB : String} {cA cB : Char} {lA lB : List Char}
    (hA : litA.data = cA :: lA) (hB : litB.data = cB :: lB) (hne : cA ≠ cB)
    (x y : String) : litA ++ x ++ "." ≠ litB ++ y ++ "." :=
  ne_of_head? (head?_line hA x ".") (head?_line hB y ".") hne

lemma when_line_not_mem {p : Parsed} (h : truthy p.when = false) (x : String) :
    ("Début observé: " ++ x ++ ".") ∉ descriptionLines p := by
  intro hmem
  rcases mem_descriptionLines hmem with h1 | h1 | h1 | h1 | h1 | h1
  · obtain ⟨l, hc⟩ := contexteLine_head p
    exact ne_of_head? (head?_line when_lit x ".") (head?_of_data hc) (by decide) h1
  · rw [optIf_eq_none h] at h1; exact Option.noConfusion h1
  · obtain ⟨s, hs⟩ := optIf_eq_some h1
    exact line_ne_line when_lit region_lit (by decide) x s hs
  · obtain ⟨s, hs⟩ := optIf_eq_some h1
    exact line_ne_line when_lit impact_lit (by decide) x s hs
  · obtain ⟨s, hs⟩ := optIf_eq_some h1
    exact line_ne_line when_lit urgency_lit (by decide) x s hs
  · obtain ⟨s, hs⟩ := optIf_eq_some h1
    exact line_ne_line when_lit error_lit (by decide) x s hs

lemma region_line_not_mem {p : Parsed} (h : truthy p.region = false) (x : String) :
    ("Zone concernée: " ++ x ++ ".") ∉ descriptionLines p := by
  intro hmem
  rcases mem_descriptionLines hmem with h1 | h1 | h1 | h1 | h1 | h1
  · obtain ⟨l, hc⟩ := contexteLine_head p
    exact ne_of_head? (head?_line region_lit x ".") (head?_of_data hc) (by decide) h1
  · obtain ⟨s, hs⟩ := optIf_eq_some h1
    exact line_ne_line region_lit when_lit (by decide) x s hs
  · rw [optIf_eq_none h] at h1; exact Option.noConfusion h1
  · obtain ⟨s, hs⟩ := optIf_eq_some h1
    exact line_ne_line region_lit impact_lit (by decide) x s hs
  · obtain ⟨s, hs⟩ := optIf_eq_some h1
    exact line_ne_line region_lit urgency_lit (by decide) x s hs
  · obtain ⟨s, hs⟩ := optIf_eq_some h1
    exact line_ne_line region_lit error_lit (by decide) x s hs

lemma impact_line_not_mem {p : Parsed} (h : truthy p.impact = false) (x : String) :
    ("Impact déclaré: " ++ x ++ ".") ∉ descriptionLines p := by
  intro hmem
  rcases mem_descriptionLines hmem with h1 | h1 | h1 | h1 | h1 | h1
  · obtain ⟨l, hc⟩ := contexteLine_head p
    exact ne_of_head? (head?_line impact_lit x ".") (head?_of_data hc) (by decide) h1
  · obtain ⟨s, hs⟩ := optIf_eq_some h1
    exact line_ne_line impact_lit when_lit (by decide) x s hs
  · obtain ⟨s, hs⟩ := optIf_eq_some h1
    exact line_ne_line impact_lit region_lit (by decide) x s hs
  · rw [optIf_eq_none h] at h1; exact Option.noConfusion h1
  · obtain ⟨s, hs⟩ := optIf_eq_some h1
    exact line_ne_line impact_lit urgency_lit (by decide) x s hs
  · obtain ⟨s, hs⟩ := optIf_eq_some h1
    exact line_ne_line impact_lit error_lit (by decide) x s hs

lemma urgency_line_not_mem {p : Parsed} (h : truthy p.urgency = false) (x : String) :
    ("Priorité/Sévérité: " ++ x ++ ".") ∉ descriptionLines p := by
  intro hmem
  rcases mem_descriptionLines hmem with h1 | h1 | h1 | h1 | h1 | h1
  · obtain ⟨l, hc⟩ := contexteLine_head p
    exact ne_of_head? (head?_line urgency_lit x ".") (head?_of_data hc) (by decide) h1
  · obtain ⟨s, hs⟩ := optIf_eq_some h1
    exact line_ne_line urgency_lit when_lit (by decide) x s hs
  · obtain ⟨s, hs⟩ := optIf_eq_some h1
    exact line_ne_line urgency_lit region_lit (by decide) x s hs
  · obtain ⟨s, hs⟩ := optIf_eq_some h1
    exact line_ne_line urgency_lit impact_lit (by decide) x s hs
  · rw [optIf_eq_none h] at h1; exact Option.noConfusion h1
  · obtain ⟨s, hs⟩ := optIf_eq_some h1
    exact line_ne_line urgency_lit error_lit (by decide) x s hs

lemma error_line_not_mem {p : Parsed} (h : truthy p.error = false) (x : String) :
    ("Symptômes/erreur: " ++ x ++ ".") ∉ descriptionLines p := by
  intro hmem
  rcases mem_descriptionLines hmem with h1 | h1 | h1 | h1 | h1 | h1
  · obtain ⟨l, hc⟩ := contexteLine_head p
    exact ne_of_head? (head?_line error_lit x ".") (head?_of_data hc) (by decide) h1
  · obtain ⟨s, hs⟩ := optIf_eq_some h1
    exact line_ne_line error_lit when_lit (by decide) x s hs
  · obtain ⟨s, hs⟩ := optIf_eq_some h1
    exact line_ne_line error_lit region_lit (by decide) x s hs
  · obtain ⟨s, hs⟩ := optIf_eq_some h1
    exact line_ne_line error_lit impact_lit (by decide) x s hs
  · obtain ⟨s, hs⟩ := optIf_eq_some h1
    exact line_ne_line error_lit urgency_lit (by decide) x s hs
  · rw [optIf_eq_none h] at h1; exact Option.noConfusion h1

/-! ### Field-level soundness of `getField` -/

lemma getScan_trim_ne {bares : List String} {lastSyn : String} {t : List Char}
    (h : getField bares lastSyn t ≠ "") :
    jsTrim (getScan (bares.map String.data) lastSyn.data t) ≠ [] := by
  intro hnil
  apply h
  unfold getField
  rw [hnil]

/-- A non-empty extracted field certifies that the last synonym of its
alternation occurs in the raw input followed by a delimiter and a
value. -/
lemma field_sound {bares : List String} {lastSyn raw : String}
    (h : getField bares lastSyn (jsTrim raw.data) ≠ "") :
    hasLabelValueB lastSyn.data raw.data = true :=
  hasLabelValueB_of_jsTrim
    (hasLabelValueB_of_getScan (bares.map String.data) _ (getScan_trim_ne h))

lemma getField_env (t : List Char) : getField ["env"] "environment" t = "" := by
  unfold getField
  rw [show ((["env"] : List String).map String.data) = ["env".data] from rfl]
  rw [getScan_env_nil]
  rfl

lemma no_label_trim {syn : List Char} {raw : String}
    (h : hasLabelB syn raw.data = false) :
    hasLabelB syn (jsTrim raw.data) = false := by
  cases hh : hasLabelB syn (jsTrim raw.data) with
  | false => rfl
  | true => rw [hasLabelB_of_jsTrim hh] at h; exact Bool.noConfusion h

lemma getField_empty_of_no_label {bares : List String} {lastSyn raw : String}
    (h : hasLabelB lastSyn.data raw.data = false) :
    getField bares lastSyn (jsTrim raw.data) = "" := by
  unfold getField
  rw [getScan_nil_of_no_label _ _ (no_label_trim h)]
  rfl

lemma parseSteps_nil {t : List Char} (h : stepsScan t = none) : parseSteps t = [] := by
  unfold parseSteps
  rw [h]
  rfl

/-! ### User-comment and work-notes helpers -/

lemma investLine_ne (p : Parsed) : investLine p ≠ "" := by
  unfold investLine
  by_cases h : truthy p.app = true
  · rw [if_pos h]
    have h0 : ("Nous investiguons actuellement un souci affectant " : String).data =
        'N' :: "ous investiguons actuellement un souci affectant ".data := rfl
    obtain ⟨l1, h1⟩ := data_head_append h0 (p.app.getD "")
    obtain ⟨l2, h2⟩ := data_head_append h1 (errSuffix p)
    obtain ⟨l3, h3⟩ := data_head_append h2 "."
    exact ne_empty_of_head? (head?_of_data h3)
  · rw [if_neg h]
    have h0 : ("Nous investiguons actuellement le souci signalé" : String).data =
        'N' :: "ous investiguons actuellement le souci signalé".data := rfl
    obtain ⟨l1, h1⟩ := data_head_append h0 (errSuffix p)
    obtain ⟨l2, h2⟩ := data_head_append h1 "."
    exact ne_empty_of_head? (head?_of_data h2)

lemma jsFilterTruthy_eval {a b c d : String} (o : Option String)
    (ha : (a == "") = false) (hb : (b == "") = false)
    (hc : (c == "") = false) (hd : (d == "") = false)
    (ho : ∀ y, o = some y → (y == "") = false) :
    jsFilterTruthy [some a, some b, o, some c, some d] =
      [a, b] ++ o.toList ++ [c, d] := by
  cases o with
  | none =>
    simp only [jsFilterTruthy, List.filterMap, Option.toList]
    simp [List.filter, ha, hb, hc, hd]
  | some y =>
    have hy := ho y rfl
    simp only [jsFilterTruthy, List.filterMap, Option.toList]
    simp [List.filter, ha, hb, hc, hd, hy]

lemma stepLinesFrom_length : ∀ (k : Nat) (l : List String),
    (stepLinesFrom k l).length = l.length := by
  intro k l
  induction l generalizing k with
  | nil => rfl
  | cons x xs ih => simp [stepLinesFrom, ih]

lemma stepLinesFrom_get : ∀ (l : List String) (k j : Nat) (s : String),
    l[j]? = some s →
    (stepLinesFrom k l)[j]? = some ("- Étape " ++ toString (k + j + 1) ++ ": " ++ s) := by
  intro l
  induction l with
  | nil => intro k j s h; simp at h
  | cons x xs ih =>
    intro k j s h
    cases j with
    | zero =>
      simp only [List.getElem?_cons_zero, Option.some.injEq] at h
      subst h
      simp [stepLinesFrom]
    | succ j =>
      simp only [List.getElem?_cons_succ] at h
      have := ih (k + 1) j s h
      have harith : k + 1 + j + 1 = k + (j + 1) + 1 := by omega
      rw [harith] at this
      simpa [stepLinesFrom] using this

lemma stepsStr_ne (p : Parsed) : stepsStr p ≠ "" := by
  unfold stepsStr
  cases hs : p.steps with
  | none => decide
  | some l =>
    cases l with
    | nil => decide
    | cons s ss =>
      have h0 : ("- Étape " : String).data = '-' :: " Étape ".data := rfl
      obtain ⟨l1, h1⟩ := data_head_append h0 (toString (0 + 1))
      obtain ⟨l2, h2⟩ := data_head_append h1 ": "
      obtain ⟨l3, h3⟩ := data_head_append h2 s
      have := @joinSep_head "\n" _ _ _ h3 (stepLinesFrom 1 ss)
      exact ne_empty_of_head? this

/-! ## Claim theorems -/

/-- C1: the claim states that for the input
`"app: Checkout\nerror: HTTP 500\nimpact: high\nsteps: restart pod; clear cache"`
extraction yields `application = "Checkout"`, `errorCode = "HTTP 500"`,
`impact = "high"`, `steps = ["restart pod", "clear cache"]` and the title
`"Checkout: HTTP 500 – impact high"`.  The code disagrees: because the
synonym alternation is interpolated ungrouped (see C3), the labels
`app:` and `error:` match as bare alternatives with an undefined capture
group, so `application` and `errorCode` come out empty and the rendered
title is `"– impact high"`.  This theorem evaluates the embedded code at
that exact input. -/
theorem claim_c1_code_behavior :
    (parseInput "app: Checkout\nerror: HTTP 500\nimpact: high\nsteps: restart pod; clear cache").app = some "" ∧
    (parseInput "app: Checkout\nerror: HTTP 500\nimpact: high\nsteps: restart pod; clear cache").error = some "" ∧
    (parseInput "app: Checkout\nerror: HTTP 500\nimpact: high\nsteps: restart pod; clear cache").impact = some "high" ∧
    (parseInput "app: Checkout\nerror: HTTP 500\nimpact: high\nsteps: restart pod; clear cache").steps = some ["restart pod", "clear cache"] ∧
    titre (parseInput "app: Checkout\nerror: HTTP 500\nimpact: high\nsteps: restart pod; clear cache") = "– impact high" := by
  refine ⟨?_, ?_, ?_, ?_, ?_⟩ <;> decide

/-- C6: for every field record (hence for every input), the rendered
title has length at most 120 characters: the assembled title is
truncated by `slice(0, 120)` and the fallback sentence is 29 characters
long. -/
theorem claim_c6_titre_length (p : Parsed) : (titre p).length ≤ 120 := by
  have htake : ∀ l : List Char, (String.mk (l.take 120)).length ≤ 120 := by
    intro l
    show (l.take 120).length ≤ 120
    rw [List.length_take]
    exact min_le_left _ _
  unfold titre
  by_cases h : (titreRaw p == "") = true
  · rw [if_pos h]; decide
  · rw [if_neg h]; exact htake _

/-- C7: for an input whose `steps:` block contains the numbered lines
`"1. Restart service\n2. Clear cache"`, the leading ordinal markers are
stripped and extraction yields `["Restart service", "Clear cache"]` in
order. -/
theorem claim_c7_numbered_steps :
    (parseInput "steps: 1. Restart service\n2. Clear cache").steps =
      some ["Restart service", "Clear cache"] := by
  decide

/-- C10: the whitespace permitted around the `:`/`=` delimiter (`\s*`)
also matches newline characters, so a label whose value appears on the
following line is still captured: on `"impact:\nhigh"` extraction
returns `impact = "high"` taken from the next line. -/
theorem claim_c10_value_next_line :
    (parseInput "impact:\nhigh").impact = some "high" := by
  decide

/-- C9: whenever the remote translation call fails — a non-2xx HTTP
status (such as 500) or an exception — `libreTranslate` returns exactly
`simpleTranslate` applied to the same text; the error is swallowed by
the `catch` and never propagated (the function is total and returns a
plain string in every case). -/
theorem claim_c9_translate_fallback :
    (∀ (text : String) (status : Nat) (translatedText : Option String),
      statusOk status = false →
      libreTranslate text (.response status translatedText) = simpleTranslate text) ∧
    (∀ text : String, libreTranslate text .exception = simpleTranslate text) := by
  constructor
  · intro text status translatedText h
    simp [libreTranslate, h]
  · intro text
    rfl

/-- C9 witness: an HTTP 500 response falls back to the offline
transform. -/
theorem claim_c9_translate_fallback_witness :
    statusOk 500 = false ∧
    libreTranslate "hello" (.response 500 none) = simpleTranslate "hello" :=
  ⟨by decide, claim_c9_translate_fallback.1 "hello" 500 none (by decide)⟩

/-- C3: because each synonym list is interpolated ungrouped into
`<synonyms>\s*[:=]\s*([^\n]+)`, the delimiter and capture attach only to
the last synonym of the alternation.  For every input: a non-empty
`app` requires a `system` label with a value in the input (so `app:`,
`application:` and `service:` on their own never produce one), a
non-empty `urgency` requires `severity`, a non-empty `error` requires
`code`, and `env` is always empty because the bare alternative `env` is
a prefix of `environment` and is tried first at every position. -/
theorem claim_c3_alternation (raw : String) :
    (∀ s : String, (parseInput raw).app = some s → s ≠ "" →
      hasLabelValueB "system".data raw.data = true) ∧
    (∀ s : String, (parseInput raw).urgency = some s → s ≠ "" →
      hasLabelValueB "severity".data raw.data = true) ∧
    (∀ s : String, (parseInput raw).error = some s → s ≠ "" →
      hasLabelValueB "code".data raw.data = true) ∧
    (parseInput raw).env = some "" := by
  refine ⟨?_, ?_, ?_, ?_⟩
  · intro s hs hne
    have heq : (parseInput raw).app =
        some (getField ["app", "application", "service"] "system" (jsTrim raw.data)) := rfl
    rw [heq] at hs
    injection hs with hs2
    exact field_sound (by rw [hs2]; exact hne)
  · intro s hs hne
    have heq : (parseInput raw).urgency =
        some (getField ["urgency", "priority", "prio"] "severity" (jsTrim raw.data)) := rfl
    rw [heq] at hs
    injection hs with hs2
    exact field_sound (by rw [hs2]; exact hne)
  · intro s hs hne
    have heq : (parseInput raw).error =
        some (getField ["error", "err"] "code" (jsTrim raw.data)) := rfl
    rw [heq] at hs
    injection hs with hs2
    exact field_sound (by rw [hs2]; exact hne)
  · have heq : (parseInput raw).env =
        some (getField ["env"] "environment" (jsTrim raw.data)) := rfl
    rw [heq, getField_env]

/-- C3 witness: on `"system=x"` the application field is `"x"` and the
theorem certifies the `system` label-with-value occurrence. -/
theorem claim_c3_alternation_witness :
    hasLabelValueB "system".data "system=x".data = true ∧
    (parseInput "system=x").env = some "" :=
  ⟨(claim_c3_alternation "system=x").1 "x" (by decide) (by decide),
   (claim_c3_alternation "system=x").2.2.2⟩

/-- C5: for every input containing no recognized label (no synonym
followed by optional whitespace and `:` or `=`), every scalar field of
the extracted record is absent — the empty string, the code's
representation of absence — the step list is empty, and the rendered
title is the fixed fallback sentence. -/
theorem claim_c5_no_labels (raw : String) (h : noLabels raw = true) :
    ((parseInput raw).app = some "" ∧ (parseInput raw).env = some "" ∧
     (parseInput raw).impact = some "" ∧ (parseInput raw).urgency = some "" ∧
     (parseInput raw).error = some "" ∧ (parseInput raw).when = some "" ∧
     (parseInput raw).region = some "" ∧ (parseInput raw).user = some "" ∧
     (parseInput raw).ticket = some "") ∧
    (parseInput raw).steps = some [] ∧
    titre (parseInput raw) = "Incident – détails à préciser" := by
  simp only [noLabels, synonymsAll, List.all_cons, List.all_nil, Bool.and_eq_true,
    Bool.not_eq_true', and_true] at h
  obtain ⟨-, -, -, hsys, -, -, himp, -, -, -, hsev, -, -, hcode, -, -, -, hstart,
    -, hloc, -, -, hcall, -, -, hid, hstep, hsteps⟩ := h
  have happ : (parseInput raw).app = some "" :=
    congrArg some (getField_empty_of_no_label hsys)
  have henv : (parseInput raw).env = some "" :=
    congrArg some (getField_env (jsTrim raw.data))
  have himp2 : (parseInput raw).impact = some "" :=
    congrArg some (getField_empty_of_no_label himp)
  have hurg : (parseInput raw).urgency = some "" :=
    congrArg some (getField_empty_of_no_label hsev)
  have herr : (parseInput raw).error = some "" :=
    congrArg some (getField_empty_of_no_label hcode)
  have hwhen : (parseInput raw).when = some "" :=
    congrArg some (getField_empty_of_no_label hstart)
  have hreg : (parseInput raw).region = some "" :=
    congrArg some (getField_empty_of_no_label hloc)
  have husr : (parseInput raw).user = some "" :=
    congrArg some (getField_empty_of_no_label hcall)
  have htick : (parseInput raw).ticket = some "" :=
    congrArg some (getField_empty_of_no_label hid)
  have hst : (parseInput raw).steps = some [] :=
    congrArg some (parseSteps_nil
      (stepsScan_none _ (no_label_trim hstep) (no_label_trim hsteps)))
  exact ⟨⟨happ, henv, himp2, hurg, herr, hwhen, hreg, husr, htick⟩, hst,
    titre_of_empty happ herr himp2⟩

/-- C5 witness: a label-free input extracts nothing and renders the
fallback title. -/
theorem claim_c5_no_labels_witness :
    noLabels "all is broken badly" = true ∧
    (parseInput "all is broken badly").app = some "" ∧
    (parseInput "all is broken badly").steps = some [] ∧
    titre (parseInput "all is broken badly") = "Incident – détails à préciser" :=
  ⟨by decide,
   (claim_c5_no_labels "all is broken badly" (by decide)).1.1,
   (claim_c5_no_labels "all is broken badly" (by decide)).2.1,
   (claim_c5_no_labels "all is broken badly" (by decide)).2.2⟩

/-- C2 counterexample: the claim "a scalar field is present iff its
label pattern (a synonym followed by `:` or `=`) matched, and absence is
a distinct unknown value, never the empty string" fails on
`"app: Checkout"`: the label pattern `app:` matches in the input, yet
the extracted application field is the empty string — the code
represents absence as `""`, and a matching non-final synonym still
produces an absent field. -/
theorem claim_c2_counterexample :
    hasLabelB "app".data "app: Checkout".data = true ∧
    (parseInput "app: Checkout").app = some "" := by
  constructor <;> decide

/-- C2 amended: every scalar field of the extracted record is always a
string (never a missing value): absence is represented by the empty
string.  A field can be non-empty only when the last synonym of its
alternation occurs with a delimiter and a value (shown here for the
impact, when, region, user and ticket fields; the app, urgency, error
and env fields are covered by C3).  Rendering treats empty fields as
absent: an absent field's line never appears in the description, and no
empty line is ever rendered. -/
theorem claim_c2_amended :
    (∀ raw : String,
      (parseInput raw).app ≠ none ∧ (parseInput raw).env ≠ none ∧
      (parseInput raw).impact ≠ none ∧ (parseInput raw).urgency ≠ none ∧
      (parseInput raw).error ≠ none ∧ (parseInput raw).when ≠ none ∧
      (parseInput raw).region ≠ none ∧ (parseInput raw).user ≠ none ∧
      (parseInput raw).ticket ≠ none ∧ (parseInput raw).steps ≠ none) ∧
    (∀ raw s : String,
      ((parseInput raw).impact = some s → s ≠ "" →
        hasLabelValueB "impact".data raw.data = true) ∧
      ((parseInput raw).when = some s → s ≠ "" →
        hasLabelValueB "started".data raw.data = true) ∧
      ((parseInput raw).region = some s → s ≠ "" →
        hasLabelValueB "location".data raw.data = true) ∧
      ((parseInput raw).user = some s → s ≠ "" →
        hasLabelValueB "caller".data raw.data = true) ∧
      ((parseInput raw).ticket = some s → s ≠ "" →
        hasLabelValueB "id".data raw.data = true)) ∧
    (∀ p : Parsed,
      "" ∉ descriptionLines p ∧
      (truthy p.when = false → ∀ x, ("Début observé: " ++ x ++ ".") ∉ descriptionLines p) ∧
      (truthy p.region = false → ∀ x, ("Zone concernée: " ++ x ++ ".") ∉ descriptionLines p) ∧
      (truthy p.impact = false → ∀ x, ("Impact déclaré: " ++ x ++ ".") ∉ descriptionLines p) ∧
      (truthy p.urgency = false → ∀ x, ("Priorité/Sévérité: " ++ x ++ ".") ∉ descriptionLines p) ∧
      (truthy p.error = false → ∀ x, ("Symptômes/erreur: " ++ x ++ ".") ∉ descriptionLines p)) := by
  refine ⟨?_, ?_, ?_⟩
  · intro raw
    refine ⟨?_, ?_, ?_, ?_, ?_, ?_, ?_, ?_, ?_, ?_⟩ <;> (intro h; exact Option.noConfusion h)
  · intro raw s
    refine ⟨?_, ?_, ?_, ?_, ?_⟩
    · intro hs hne
      have heq : (parseInput raw).impact =
          some (getField [] "impact" (jsTrim raw.data)) := rfl
      rw [heq] at hs
      injection hs with hs2
      exact field_sound (by rw [hs2]; exact hne)
    · intro hs hne
      have heq : (parseInput raw).when =
          some (getField ["when", "since", "time"] "started" (jsTrim raw.data)) := rfl
      rw [heq] at hs
      injection hs with hs2
      exact field_sound (by rw [hs2]; exact hne)
    · intro hs hne
      have heq : (parseInput raw).region =
          some (getField ["region"] "location" (jsTrim raw.data)) := rfl
      rw [heq] at hs
      injection hs with hs2
      exact field_sound (by rw [hs2]; exact hne)
    · intro hs hne
      have heq : (parseInput raw).user =
          some (getField ["user", "requester"] "caller" (jsTrim raw.data)) := rfl
      rw [heq] at hs
      injection hs with hs2
      exact field_sound (by rw [hs2]; exact hne)
    · intro hs hne
      have heq : (parseInput raw).ticket =
          some (getField ["ticket", "ref"] "id" (jsTrim raw.data)) := rfl
      rw [heq] at hs
      injection hs with hs2
      exact field_sound (by rw [hs2]; exact hne)
  · intro p
    exact ⟨empty_not_mem_descriptionLines p,
      fun h x => when_line_not_mem h x,
      fun h x => region_line_not_mem h x,
      fun h x => impact_line_not_mem h x,
      fun h x => urgency_line_not_mem h x,
      fun h x => error_line_not_mem h x⟩

/-- C2 amended witness: on `"impact: high"` the impact label with value
is certified, and for a record with no impact the impact line is absent
from the description. -/
theorem claim_c2_amended_witness :
    hasLabelValueB "impact".data "impact: high".data = true ∧
    ("Impact déclaré: " ++ "x" ++ ".") ∉
      descriptionLines ⟨none, none, none, none, none, none, none, none, none, none, none⟩ := by
  constructor
  · exact (claim_c2_amended.2.1 "impact: high" "high").1 (by decide) (by decide)
  · exact (claim_c2_amended.2.2
      ⟨none, none, none, none, none, none, none, none, none, none, none⟩).2.2.2.1 (by decide) "x"

/-- C4 counterexample: the claim says the user comment equals its
constituent lines joined with a single newline; on a record with no
fields, the rendered comment differs from that join — the actual
separator is `" \n"` (a space followed by a newline). -/
theorem claim_c4_counterexample :
    userComment ⟨none, none, none, none, none, none, none, none, none, none, none⟩ ≠
      joinSep "\n" (userCommentLines
        ⟨none, none, none, none, none, none, none, none, none, none, none⟩) := by
  decide

/-- C4 amended: for every field record, the rendered user comment equals
its constituent lines (fixed greeting, investigation sentence, optional
declared-impact line, fixed reassurance sentence, fixed closing
sentence) joined with the two-character separator `" \n"` — a space
followed by a newline — rather than a single newline. -/
theorem claim_c4_amended (p : Parsed) :
    userComment p = joinSep " \n" (userCommentLines p) := by
  have hb : (("Bonjour," : String) == "") = false := by decide
  have hm : (("Nos équipes sont mobilisées. Nous vous tiendrons informé de l'avancement." : String) == "") = false := by
    decide
  have hpat : (("Merci de votre patience." : String) == "") = false := by decide
  have hinv : ((investLine p) == "") = false :=
    beq_eq_false_iff_ne.mpr (investLine_ne p)
  have ho : ∀ y, optIf p.impact (fun i => "Impact déclaré: " ++ i ++ ".") = some y →
      (y == "") = false := by
    intro y hy
    obtain ⟨s, hs⟩ := optIf_eq_some hy
    rw [hs]
    exact beq_eq_false_iff_ne.mpr (ne_empty_of_head? (head?_line impact_lit s "."))
  unfold userComment
  rw [jsFilterTruthy_eval _ hb hinv hm hpat ho]
  congr 1
  unfold userCommentLines
  cases himp : p.impact with
  | none => simp [optIf, truthy]
  | some s =>
    by_cases hs : (s == "") = true
    · simp [optIf, truthy, hs]
    · simp [optIf, truthy, hs]

/-- C8: for every input with no steps label the extracted step list is
empty and the work notes contain the block
`"Actions réalisées:\n- Aucune étape fournie."` — the fixed
"no steps provided" line inside the "actions taken" block — and never an
empty bullet list (the steps sub-block is never the empty string).
When steps are present the block has exactly one line per step,
the `j`-th line being `"- Étape <j+1>: <step>"`. -/
theorem claim_c8_work_notes_steps :
    (∀ ts raw : String, noStepsLabelB raw = true →
      (parseInput raw).steps = some [] ∧
      ∃ a b : String, workNotes ts (parseInput raw) =
        a ++ ("Actions réalisées:\n" ++ "- Aucune étape fournie.") ++ b) ∧
    (∀ p : Parsed, stepsStr p ≠ "") ∧
    (∀ (p : Parsed) (s : String) (ss : List String), p.steps = some (s :: ss) →
      stepsStr p = joinSep "\n" (stepLinesFrom 0 (s :: ss))) ∧
    (∀ l : List String, (stepLinesFrom 0 l).length = l.length) ∧
    (∀ (l : List String) (j : Nat) (s : String), l[j]? = some s →
      (stepLinesFrom 0 l)[j]? = some ("- Étape " ++ toString (j + 1) ++ ": " ++ s)) := by
  refine ⟨?_, stepsStr_ne, ?_, ?_, ?_⟩
  · intro ts raw h
    simp only [noStepsLabelB, Bool.and_eq_true, Bool.not_eq_true'] at h
    have hst : (parseInput raw).steps = some [] :=
      congrArg some (parseSteps_nil
        (stepsScan_none _ (no_label_trim h.1) (no_label_trim h.2)))
    refine ⟨hst, ?_⟩
    have hstr : stepsStr (parseInput raw) = "- Aucune étape fournie." := by
      unfold stepsStr
      rw [hst]
    have hmem : ("Actions réalisées:\n" ++ stepsStr (parseInput raw)) ∈
        workNotesBlocks ts (parseInput raw) := by
      unfold workNotesBlocks jsFilterTruthy
      apply List.mem_filter.mpr
      constructor
      · apply List.mem_filterMap.mpr
        refine ⟨some ("Actions réalisées:\n" ++ stepsStr (parseInput raw)), ?_, rfl⟩
        simp [List.mem_cons]
      · rw [hstr]
        decide
    rw [hstr] at hmem
    exact joinSep_mem hmem
  · intro p s ss h
    unfold stepsStr
    rw [h]
  · exact stepLinesFrom_length 0
  · intro l j s h
    have := stepLinesFrom_get l 0 j s h
    simpa using this

/-- C8 witness: a steps-free input yields the "no steps provided" block,
and a singleton step list renders as `"- Étape 1: x"`. -/
theorem claim_c8_work_notes_steps_witness :
    noStepsLabelB "all broken" = true ∧
    (parseInput "all broken").steps = some [] ∧
    (∃ a b : String, workNotes "TS" (parseInput "all broken") =
      a ++ ("Actions réalisées:\n" ++ "- Aucune étape fournie.") ++ b) ∧
    (stepLinesFrom 0 ["x"])[0]? = some ("- Étape " ++ toString (0 + 1) ++ ": " ++ "x") :=
  ⟨by decide,
   (claim_c8_work_notes_steps.1 "TS" "all broken" (by decide)).1,
   (claim_c8_work_notes_steps.1 "TS" "all broken" (by decide)).2,
   claim_c8_work_notes_steps.2.2.2.2 ["x"] 0 "x" (by decide)⟩
